import Mathlib

/-!
Verification development for the encrypted localStorage engine
(SecureStorage / EncryptionHelper / KeyRotation / NamespacedStorage /
EventEmitter).

The Backing Store (browser localStorage) is modelled as an association
list of string keys to string values that preserves insertion order, as
localStorage enumeration does.  Browser primitives that the engine only
calls (SHA-256 digest, AES-GCM, JSON serialization of the envelope, the
gzip codec) are abstract function parameters of the model; the engine's
own logic — key-name obfuscation, the value envelope, truthiness checks,
expiry, fallback policy, base64 framing, rotation, namespaces, events —
is translated concretely from the source.
-/

/-- The Backing Store: ordered key/value pairs (models localStorage). -/
abbrev Store := List (String × String)

/-- localStorage.getItem: first entry with the key, if any. -/
def Store.get : Store → String → Option String
  | [], _ => none
  | p :: t, k => if p.1 = k then some p.2 else Store.get t k

/-- localStorage.setItem: replace in place, else append. -/
def Store.set : Store → String → String → Store
  | [], k, v => [(k, v)]
  | p :: t, k, v => if p.1 = k then (k, v) :: t else p :: Store.set t k v

/-- localStorage.removeItem. -/
def Store.remove : Store → String → Store
  | [], _ => []
  | p :: t, k => if p.1 = k then Store.remove t k else p :: Store.remove t k

/-- The key enumeration localStorage.key(0..length-1). -/
def Store.keys (s : Store) : List String := s.map (fun p => p.1)

/-- JavaScript string truthiness applied to a nullable read: both null and
the empty string count as absent (the code tests `if (!encryptedValue)`). -/
def truthy (o : Option String) : Option String :=
  match o with
  | some s => if s = "" then none else some s
  | none => none

/-- Prefix test on character lists (models String.prototype.startsWith). -/
def isPref : List Char → List Char → Bool
  | [], _ => true
  | _ :: _, [] => false
  | a :: as, b :: bs => a = b && isPref as bs

/-- Model of JavaScript s.startsWith(pre). -/
def strStarts (s pre : String) : Bool := isPref pre.data s.data

/-- Does pat occur as a contiguous substring of l (String.prototype.includes)? -/
def subOcc : List Char → List Char → Bool
  | [], pat => pat.isEmpty
  | a :: t, pat => isPref pat (a :: t) || subOcc t pat

/-- Model of JavaScript s.includes(pat). -/
def strContains (s pat : String) : Bool := subOcc s.data pat.data

/-- Remove the first occurrence of pat (String.prototype.replace(pat, '')). -/
def remFirst : List Char → List Char → List Char
  | [], _ => []
  | a :: t, pat => if isPref pat (a :: t) then (a :: t).drop pat.length
                   else a :: remFirst t pat

/-- Model of JavaScript s.replace(pat, ''). -/
def strDropOcc (s pat : String) : String := String.mk (remFirst s.data pat.data)

/-- One hex digit, as produced by b.toString(16) for a digit value. -/
def hexDigitChar (n : Nat) : Char := "0123456789abcdef".data.getD n '0'

/-- Two-digit lowercase hex of one byte
(b.toString(16).padStart(2, '0') in arrayBufferToHex). -/
def byteToHex (b : Nat) : List Char := [hexDigitChar (b / 16 % 16), hexDigitChar (b % 16)]

/-- EncryptionHelper.arrayBufferToHex: bytes to lowercase hex characters. -/
def bytesToHex (bs : List Nat) : List Char := bs.flatMap byteToHex

namespace EncryptionHelper

/-- hashString: SHA-256 (the abstract digest parameter) rendered as hex. -/
def hashString (digest : String → List Nat) (s : String) : List Char :=
  bytesToHex (digest s)

/-- encryptKey: obfuscated Backing Store name for a logical key —
the marker prefixed to the first 16 hex characters of
hash(keyName + fingerprint-derived base key). -/
def encryptKey (digest : String → List Nat) (baseKey keyName : String) : String :=
  "__enc_" ++ String.mk ((hashString digest (keyName ++ baseKey)).take 16)

/-- clearEncryptedData: drop every entry whose stored name starts with the
marker, then drop the persisted salt.  The key-version entry is not touched. -/
def clearEncryptedData (store : Store) : Store :=
  let keysToRemove := (Store.keys store).filter (fun k => strStarts k "__enc_")
  Store.remove (keysToRemove.foldl Store.remove store) "__app_salt"

end EncryptionHelper

/-- The storage event kinds the engine emits (payloads beyond the key are
not needed by the claims about the facade). -/
inductive Ev where
  | encrypted (key : String)
  | decrypted (key : String)
  | deleted (key : String)
  | cleared
  | expired (key : String)
  | error (key : String)
  | keyRotated
  | compressed (key : String)
  | decompressed (key : String)
deriving Repr, DecidableEq

/-- The versioned envelope written around every value (StoredValue). -/
structure StoredValue where
  value : String
  expiresAt : Option Nat := none
  createdAt : Nat
  modifiedAt : Nat
  version : Nat
  compressed : Bool
  checksum : Option String := none
deriving Repr, DecidableEq

/-- STORAGE_VERSION. -/
def storageVersion : Nat := 2

/-- Options accepted by setItemWithExpiry; expiresAt models the
millisecond timestamp options.expiresAt.getTime(). -/
structure ExpiryOptions where
  expiresIn : Option Nat := none
  expiresAt : Option Nat := none
deriving Repr, DecidableEq

/-- The expiry timestamp computed by setItemWithExpiry.  JavaScript
truthiness: `if (options.expiresIn)` is false for 0, in which case the
absolute option is consulted instead. -/
def computeExpiry (now : Nat) (opts : ExpiryOptions) : Option Nat :=
  match opts.expiresIn with
  | some d => if d ≠ 0 then some (now + d) else opts.expiresAt
  | none => opts.expiresAt

/-- The envelope built by the set path (timestamps, schema version,
compression flag, checksum, optional expiry). -/
def mkStored (now : Nat) (pv : String) (comp : Bool) (cks : String)
    (exp : Option Nat) : StoredValue :=
  { value := pv, expiresAt := exp, createdAt := now, modifiedAt := now,
    version := storageVersion, compressed := comp, checksum := some cks }

/-- Environment of the set path.  Each field that models an awaited
browser call is Option-valued: none models the call throwing, which the
set path's catch-all handler intercepts. -/
structure SetEnv where
  supported : Bool
  compression : Bool
  threshold : Nat
  now : Nat
  compressF : String → Option String
  checksumF : String → Option String
  serializeF : StoredValue → Option String
  encKeyF : String → Option String
  encF : String → Option String
  storeWriteF : String → String → Bool

/-- shouldCompress gated by the compression config flag. -/
def shouldCompressB (env : SetEnv) (value : String) : Bool :=
  env.compression && decide (env.threshold ≤ value.length)

/-- The try-block shared by setItem and setItemWithExpiry: compress when
over threshold (emitting 'compressed'), build the envelope with checksum,
serialize, obfuscate the key, encrypt, write.  Returns the events emitted
before any failure, and the written (name, record) pair on full success. -/
def buildTrace (env : SetEnv) (key value : String) (exp : Option Nat) :
    List Ev × Option (String × String) :=
  let doComp := shouldCompressB env value
  match (if doComp then env.compressF value else some value) with
  | none => ([], none)
  | some pv =>
    let evs := if doComp then [Ev.compressed key] else []
    match env.checksumF pv with
    | none => (evs, none)
    | some cks =>
      match env.serializeF (mkStored env.now pv doComp cks exp) with
      | none => (evs, none)
      | some ser =>
        match env.encKeyF key with
        | none => (evs, none)
        | some ek =>
          match env.encF ser with
          | none => (evs, none)
          | some ct =>
            if env.storeWriteF ek ct then (evs, some (ek, ct)) else (evs, none)

namespace SecureStorage

/-- setItem: unsupported crypto writes plaintext under the plain name;
otherwise run the set path, and on any failure fall back to the plaintext
write and emit 'error' (the catch handler); on success emit 'encrypted'. -/
def setItem (env : SetEnv) (store : Store) (key value : String) :
    Store × List Ev :=
  if env.supported = false then (Store.set store key value, []) else
  match buildTrace env key value none with
  | (evs, some (ek, ct)) => (Store.set store ek ct, evs ++ [Ev.encrypted key])
  | (evs, none) => (Store.set store key value, evs ++ [Ev.error key])

/-- Result of setItemWithExpiry: unlike setItem, its catch handler
re-throws after emitting 'error'. -/
inductive SetResult where
  | ok (store : Store) (evs : List Ev)
  | threw (store : Store) (evs : List Ev)
deriving Repr, DecidableEq

/-- setItemWithExpiry: same path with the computed expiry in the
envelope, but the catch handler emits 'error' and then re-throws without
the plaintext fallback write. -/
def setItemWithExpiry (env : SetEnv) (store : Store) (key value : String)
    (opts : ExpiryOptions) : SetResult :=
  if env.supported = false then SetResult.ok (Store.set store key value) [] else
  match buildTrace env key value (computeExpiry env.now opts) with
  | (evs, some (ek, ct)) =>
      SetResult.ok (Store.set store ek ct) (evs ++ [Ev.encrypted key])
  | (evs, none) => SetResult.threw store (evs ++ [Ev.error key])

/-- removeItem: deletes both the obfuscated and the plain entry and emits
'deleted'; if obfuscation throws, only the plain entry is deleted. -/
def removeItem (env : SetEnv) (store : Store) (key : String) :
    Store × List Ev :=
  if env.supported = false then (Store.remove store key, []) else
  match env.encKeyF key with
  | some ek => (Store.remove (Store.remove store ek) key, [Ev.deleted key])
  | none => (Store.remove store key, [])

end SecureStorage

/-- Environment of the get path: the set environment (the legacy
auto-migration re-enters setItem) plus decryption, envelope parsing and
decompression, each Option-valued to model a throwing call. -/
structure GetEnv extends SetEnv where
  decF : String → Option String
  parseF : String → Option StoredValue
  decompressF : String → Option String

namespace SecureStorage

/-- The legacy branch of getItem: auto-migrate by re-running setItem on
the decrypted plain string and return that string. -/
def getItemMigrate (env : GetEnv) (store : Store) (key decrypted : String) :
    Store × List Ev × Option String :=
  let r := setItem env.toSetEnv store key decrypted
  (r.1, r.2, some decrypted)

/-- The tail of the get path: non-fatal integrity check, then
decompression if flagged, then the 'decrypted' event and the value. -/
def getItemFinish (env : GetEnv) (store : Store) (key : String)
    (sv : StoredValue) : Store × List Ev × Option String :=
  let checkEvs : Option (List Ev) :=
    match sv.checksum with
    | some c =>
        if c ≠ "" then
          (env.checksumF sv.value).map (fun c2 => if c2 ≠ c then [Ev.error key] else [])
        else some []
    | none => some []
  match checkEvs with
  | none => (store, [Ev.error key], Store.get store key)
  | some cevs =>
    if sv.compressed then
      match env.decompressF sv.value with
      | none => (store, cevs ++ [Ev.error key], Store.get store key)
      | some fin => (store, cevs ++ [Ev.decompressed key, Ev.decrypted key], some fin)
    else (store, cevs ++ [Ev.decrypted key], some sv.value)

/-- getItem after a non-empty record was read: decrypt, parse the
envelope (falsy value or version routes to legacy migration), check
expiry (a falsy expiresAt is never expired), verify the checksum
non-fatally, decompress, return.  Any throwing call is caught and falls
back to the plain-name read with an 'error' event. -/
def getItemDecode (env : GetEnv) (store : Store) (key encVal : String) :
    Store × List Ev × Option String :=
  match env.decF encVal with
  | none => (store, [Ev.error key], Store.get store key)
  | some decrypted =>
    match env.parseF decrypted with
    | none => getItemMigrate env store key decrypted
    | some sv =>
      if sv.value = "" ∨ sv.version = 0 then getItemMigrate env store key decrypted
      else
        match sv.expiresAt with
        | some t =>
          if t ≠ 0 ∧ t < env.now then
            let r := removeItem env.toSetEnv store key
            (r.1, r.2 ++ [Ev.expired key], none)
          else getItemFinish env store key sv
        | none => getItemFinish env store key sv

/-- getItem: read the obfuscated name, fall back to the plain name when
the read is falsy, return null when both are; otherwise decode. -/
def getItem (env : GetEnv) (store : Store) (key : String) :
    Store × List Ev × Option String :=
  if env.supported = false then (store, [], Store.get store key) else
  match env.encKeyF key with
  | none => (store, [Ev.error key], Store.get store key)
  | some ek =>
    match truthy (Store.get store ek) with
    | some encVal => getItemDecode env store key encVal
    | none =>
      match truthy (Store.get store key) with
      | some encVal => getItemDecode env store key encVal
      | none => (store, [], none)

/-- clear: wipe the marked entries and the salt, emit 'cleared'. -/
def clear (store : Store) : Store × List Ev :=
  (EncryptionHelper.clearEncryptedData store, [Ev.cleared])

end SecureStorage

/-- Context for key rotation: the cipher is indexed by the key epoch
(which derived key the helper holds); the fingerprint-derived base key
used for key-name obfuscation does not change across rotations. -/
structure RotCtx where
  digest : String → List Nat
  baseKey : String
  enc : Nat → String → String
  dec : Nat → String → Option String

namespace KeyRotation

/-- exportEncryptedData: walk the Backing Store in order, and for every
truthy entry under a marked name that the current key decrypts, record
the pair (obfuscated name, decrypted serialized envelope).  Entries that
fail to decrypt are skipped. -/
def exportData (ctx : RotCtx) (epoch : Nat) (store : Store) :
    List (String × String) :=
  store.foldl (fun acc p =>
    if strStarts p.1 "__enc_" then
      if p.2 ≠ "" then
        match ctx.dec epoch p.2 with
        | some d => acc ++ [(p.1, d)]
        | none => acc
      else acc
    else acc) []

/-- The rotation world: the Backing Store, the active key epoch, and the
helper's in-memory key-version counter. -/
structure RotWorld where
  store : Store
  epoch : Nat
  keyVersion : Nat
deriving Repr, DecidableEq

/-- rotateKeys: export, wipe the marked entries and salt, initialize a
fresh salt/key (persisting the incremented version), then re-encrypt
each backup value under a name obtained by re-obfuscating the backup's
identifier — which is the old obfuscated name, not the logical key. -/
def rotateKeys (ctx : RotCtx) (newSalt : String) (w : RotWorld) : RotWorld :=
  let backup := exportData ctx w.epoch w.store
  let s1 := EncryptionHelper.clearEncryptedData w.store
  let kv := w.keyVersion + 1
  let s2 := Store.set (Store.set s1 "__key_version" (toString kv)) "__app_salt" newSalt
  let ep := w.epoch + 1
  let s3 := backup.foldl (fun st p =>
    Store.set st (EncryptionHelper.encryptKey ctx.digest ctx.baseKey p.1) (ctx.enc ep p.2)) s2
  { store := s3, epoch := ep, keyVersion := kv }

end KeyRotation

/-- The logical-key prefix a namespace handle prepends. -/
def nsPref (name : String) : String := "__ns_" ++ name ++ "__"

namespace NamespacedStorage

/-- Namespace setItem: delegate to the facade under the prefixed key. -/
def setItem (env : SetEnv) (store : Store) (name key value : String) :
    Store × List Ev :=
  SecureStorage.setItem env store (nsPref name ++ key) value

/-- Namespace getItem: delegate to the facade under the prefixed key. -/
def getItem (env : GetEnv) (store : Store) (name key : String) :
    Store × List Ev × Option String :=
  SecureStorage.getItem env store (nsPref name ++ key)

/-- clearNamespace: scan the Backing Store for stored names containing
the prefix fragment, strip the fragment, and remove each through the
facade (which re-prefixes). -/
def clearNamespace (env : SetEnv) (store : Store) (name : String) :
    Store × List Ev :=
  let pre := nsPref name
  let keysToRemove :=
    ((Store.keys store).filter (fun s => strContains s pre)).map
      (fun s => strDropOcc s pre)
  keysToRemove.foldl (fun acc k =>
    let r := SecureStorage.removeItem env acc.1 (pre ++ k)
    (r.1, acc.2 ++ r.2)) (store, [])

end NamespacedStorage

/-- The standard base64 alphabet. -/
def b64Alphabet : List Char :=
  "ABCDEFGHIJKLMNOPQRSTUVWXYZabcdefghijklmnopqrstuvwxyz0123456789+/".data

/-- Character for one 6-bit group. -/
def sextetChar (n : Nat) : Char := b64Alphabet.getD n 'A'

/-- Value of one base64 character (inverse alphabet lookup). -/
def sextetVal (c : Char) : Nat := b64Alphabet.indexOf c

/-- btoa over the byte values of the combined buffer
(arrayBufferToBase64: bytes to base64 characters, three at a time, with
padding). -/
def encodeB64 : List Nat → List Char
  | [] => []
  | [a] => [sextetChar (a / 4), sextetChar (a % 4 * 16), '=', '=']
  | [a, b] => [sextetChar (a / 4), sextetChar (a % 4 * 16 + b / 16),
               sextetChar (b % 16 * 4), '=']
  | a :: b :: c :: rest =>
      sextetChar (a / 4) :: sextetChar (a % 4 * 16 + b / 16) ::
      sextetChar (b % 16 * 4 + c / 64) :: sextetChar (c % 64) :: encodeB64 rest

/-- atob followed by charCodeAt (base64ToArrayBuffer): base64 characters
back to byte values, four at a time, honouring padding. -/
def decodeB64 : List Char → List Nat
  | c0 :: c1 :: c2 :: c3 :: rest =>
      if c2 = '=' then [sextetVal c0 * 4 + sextetVal c1 / 16]
      else if c3 = '=' then
        [sextetVal c0 * 4 + sextetVal c1 / 16,
         sextetVal c1 % 16 * 16 + sextetVal c2 / 4]
      else
        (sextetVal c0 * 4 + sextetVal c1 / 16) ::
        (sextetVal c1 % 16 * 16 + sextetVal c2 / 4) ::
        (sextetVal c2 % 4 * 64 + sextetVal c3) :: decodeB64 rest
  | _ => []

/-- The browser primitives the authenticated cipher calls, as abstract
functions: TextEncoder/TextDecoder and AES-GCM under a given key.  The
IV length is the configured one (default 12). -/
structure CipherEnv where
  ivLength : Nat
  utf8Enc : String → List Nat
  utf8Dec : List Nat → String
  aesEnc : List Nat → List Nat → List Nat → List Nat
  aesDec : List Nat → List Nat → List Nat → Option (List Nat)

namespace EncryptionHelper

/-- encrypt: UTF-8 encode, AES-GCM encrypt under the derived key with the
fresh random IV, prepend the IV, base64 the combined buffer. -/
def encrypt (env : CipherEnv) (key iv : List Nat) (plaintext : String) : String :=
  let data := env.utf8Enc plaintext
  let combined := iv ++ env.aesEnc key iv data
  String.mk (encodeB64 combined)

/-- decrypt: base64-decode, split off the IV at the configured length,
AES-GCM decrypt (which fails when the tag does not verify), UTF-8 decode. -/
def decrypt (env : CipherEnv) (key : List Nat) (ciphertext : String) :
    Option String :=
  let combined := decodeB64 ciphertext.data
  let iv := combined.take env.ivLength
  let encryptedData := combined.drop env.ivLength
  (env.aesDec key iv encryptedData).map env.utf8Dec

end EncryptionHelper

/-- Event payload delivered to subscribers (type, key, attached timestamp). -/
structure EvData where
  type : String
  key : Option String
  timestamp : Nat
deriving Repr, DecidableEq

/-- A subscriber: its effect on the outside world when invoked, and
whether the invocation ends by throwing (the thrown error is reported by
the emitter's per-listener handler and swallowed). -/
structure Listener (σ : Type) where
  run : EvData → σ → σ
  throws : EvData → σ → Bool

/-- The listeners registered for one event kind. -/
def lookupLs {σ : Type} (m : List (String × List (Listener σ))) (e : String) :
    List (Listener σ) :=
  match m.find? (fun p => p.1 = e) with
  | some p => p.2
  | none => []

/-- EventEmitter state: regular and once listeners per event kind. -/
structure EmitterState (σ : Type) where
  listeners : List (String × List (Listener σ))
  onceListeners : List (String × List (Listener σ))

/-- Invoke each listener in order inside its own try/catch: the world
advances through every listener and each throw is recorded, never
propagated. -/
def runAll {σ : Type} (d : EvData) : List (Listener σ) → σ → σ × List Bool
  | [], w => (w, [])
  | l :: ls, w =>
      let w1 := l.run d w
      let r := runAll d ls w1
      (r.1, l.throws d w :: r.2)

namespace EventEmitter

/-- emit: build the event data with the attached timestamp, invoke every
regular listener, then every once listener, then drop the once set; the
returned flag list records which invocations threw (and were swallowed). -/
def emit {σ : Type} (st : EmitterState σ) (event : String) (key : Option String)
    (now : Nat) (w : σ) : EmitterState σ × σ × List Bool :=
  let d : EvData := { type := event, key := key, timestamp := now }
  let r1 := runAll d (lookupLs st.listeners event) w
  let r2 := runAll d (lookupLs st.onceListeners event) r1.1
  ({ st with onceListeners := st.onceListeners.filter (fun p => !(p.1 = event)) },
   r2.1, r1.2 ++ r2.2)

end EventEmitter

/-!
Concrete instances of the abstract browser primitives, used to evaluate
the model on closed inputs: an identity-style digest, a marker cipher, a
marker codec, and an invertible rendering of the envelope standing in
for JSON.stringify/JSON.parse.
-/

/-- Digit characters to a number (used by the envelope rendering's inverse). -/
def natOfChars (l : List Char) : Option Nat :=
  if l.isEmpty then none
  else if l.all (fun c => decide (48 ≤ c.toNat) && decide (c.toNat ≤ 57)) then
    some (l.foldl (fun acc c => acc * 10 + (c.toNat - 48)) 0)
  else none

/-- Split a character list on the bar separator. -/
def splitBarL : List Char → List (List Char)
  | [] => [[]]
  | c :: t =>
    let r := splitBarL t
    if c = '|' then [] :: r
    else
      match r with
      | h :: rest => (c :: h) :: rest
      | [] => [[c]]

/-- Rendering of an optional number. -/
def encOptNat : Option Nat → String
  | none => "n"
  | some t => "s" ++ toString t

/-- Rendering of an optional string. -/
def encOptStr : Option String → String
  | none => "n"
  | some c => "s" ++ c

/-- Rendering of a flag. -/
def encBool : Bool → String
  | true => "t"
  | false => "f"

/-- A concrete injective rendering of the envelope (stands in for
JSON.stringify in closed evaluations). -/
def svToString (sv : StoredValue) : String :=
  sv.value ++ "|" ++ encOptNat sv.expiresAt ++ "|" ++ toString sv.createdAt ++
  "|" ++ toString sv.modifiedAt ++ "|" ++ toString sv.version ++ "|" ++
  encBool sv.compressed ++ "|" ++ encOptStr sv.checksum

/-- Inverse of encOptNat. -/
def decOptNat : List Char → Option (Option Nat)
  | ['n'] => some none
  | 's' :: t => (natOfChars t).map some
  | _ => none

/-- Inverse of encOptStr. -/
def decOptStr : List Char → Option (Option String)
  | ['n'] => some none
  | 's' :: t => some (some (String.mk t))
  | _ => none

/-- Inverse of encBool. -/
def decBool : List Char → Option Bool
  | ['t'] => some true
  | ['f'] => some false
  | _ => none

/-- Inverse of svToString on bar-free fields (stands in for JSON.parse
plus the structural envelope check in closed evaluations). -/
def svParse (s : String) : Option StoredValue :=
  match splitBarL s.data with
  | [v, e, ca, ma, ver, cb, ck] =>
    match decOptNat e, natOfChars ca, natOfChars ma, natOfChars ver,
          decBool cb, decOptStr ck with
    | some e2, some ca2, some ma2, some ver2, some cb2, some ck2 =>
        some { value := String.mk v, expiresAt := e2, createdAt := ca2,
               modifiedAt := ma2, version := ver2, compressed := cb2,
               checksum := ck2 }
    | _, _, _, _, _, _ => none
  | _ => none

/-- A concrete digest: the character codes of the input. -/
def toyDigest (s : String) : List Nat := s.data.map Char.toNat

/-- calculateChecksum over the concrete digest. -/
def toyChecksum (v : String) : Option String :=
  some (String.mk (bytesToHex (toyDigest v)))

/-- A concrete single-key cipher: tag the plaintext. -/
def toyEnc (s : String) : String := "E" ++ s

/-- Inverse of toyEnc; anything untagged fails to decrypt. -/
def toyDec (s : String) : Option String :=
  match s.data with
  | 'E' :: t => some (String.mk t)
  | _ => none

/-- A concrete epoch-indexed cipher: tag with the key epoch, so records
of one epoch fail to decrypt under another. -/
def toyEncN (i : Nat) (s : String) : String := toString i ++ "#" ++ s

/-- Inverse of toyEncN at a matching epoch. -/
def toyDecN (i : Nat) (s : String) : Option String :=
  let pre := (toString i ++ "#").data
  if isPref pre s.data then some (String.mk (s.data.drop pre.length)) else none

/-- A concrete codec: tag the compressed form. -/
def toyCompress (v : String) : Option String := some ("C" ++ v)

/-- Inverse of toyCompress. -/
def toyDecompress (v : String) : Option String :=
  match v.data with
  | 'C' :: t => some (String.mk t)
  | _ => none

/-- Concrete set environment: crypto supported, compression configured
off, fixed clock. -/
def toySet : SetEnv :=
  { supported := true, compression := false, threshold := 1024, now := 100,
    compressF := toyCompress, checksumF := toyChecksum,
    serializeF := fun sv => some (svToString sv),
    encKeyF := fun k => some (EncryptionHelper.encryptKey toyDigest "B" k),
    encF := fun s => some (toyEnc s), storeWriteF := fun _ _ => true }

/-- Concrete get environment over toySet. -/
def toyGet : GetEnv :=
  { toSetEnv := toySet, decF := toyDec, parseF := svParse,
    decompressF := toyDecompress }

/-- Concrete get environment holding the derived key of a given epoch. -/
def toyGetAt (epoch : Nat) : GetEnv :=
  { toSetEnv := { toySet with encF := fun s => some (toyEncN epoch s) },
    decF := toyDecN epoch, parseF := svParse, decompressF := toyDecompress }

/-- Concrete rotation context over the epoch-indexed cipher. -/
def toyRot : RotCtx :=
  { digest := toyDigest, baseKey := "B", enc := toyEncN, dec := toyDecN }

/-- Concrete cipher primitives: codepoint-wise text codec and an identity
block transform, enough to evaluate the framing on closed inputs. -/
def toyCipher : CipherEnv :=
  { ivLength := 2, utf8Enc := fun s => s.data.map Char.toNat,
    utf8Dec := fun l => String.mk (l.map Char.ofNat),
    aesEnc := fun _ _ d => d, aesDec := fun _ _ d => some d }

/-!  Helper lemmas about the Backing Store model. -/

theorem Store.keys_cons (p : String × String) (t : Store) :
    Store.keys (p :: t) = p.1 :: Store.keys t := rfl

theorem Store.get_set_same (s : Store) (k v : String) :
    Store.get (Store.set s k v) k = some v := by
  induction s with
  | nil => simp [Store.set, Store.get]
  | cons p t ih =>
    by_cases h : p.1 = k
    · simp [Store.set, Store.get, h]
    · simp [Store.set, Store.get, h, ih]

theorem Store.get_set_of_ne (s : Store) (k v k2 : String) (h : k2 ≠ k) :
    Store.get (Store.set s k v) k2 = Store.get s k2 := by
  have hk : ¬ k = k2 := fun hh => h hh.symm
  induction s with
  | nil => simp [Store.set, Store.get, hk]
  | cons p t ih =>
    by_cases hp : p.1 = k
    · simp [Store.set, Store.get, hp, hk]
    · simp [Store.set, Store.get, hp, ih]

theorem Store.get_remove_same (s : Store) (k : String) :
    Store.get (Store.remove s k) k = none := by
  induction s with
  | nil => simp [Store.remove, Store.get]
  | cons p t ih =>
    by_cases h : p.1 = k
    · simp [Store.remove, h, ih]
    · simp [Store.remove, Store.get, h, ih]

theorem Store.get_remove_of_ne (s : Store) (k k2 : String) (h : k2 ≠ k) :
    Store.get (Store.remove s k) k2 = Store.get s k2 := by
  induction s with
  | nil => simp [Store.remove]
  | cons p t ih =>
    by_cases hp : p.1 = k
    · have h2 : ¬ k = k2 := fun hh => h hh.symm
      simp [Store.remove, Store.get, hp, h2, ih]
    · simp [Store.remove, Store.get, hp, ih]

theorem Store.get_eq_none (s : Store) (k : String) (h : k ∉ Store.keys s) :
    Store.get s k = none := by
  induction s with
  | nil => rfl
  | cons p t ih =>
    rw [Store.keys_cons, List.mem_cons] at h
    have h1 : ¬ p.1 = k := fun hh => h (Or.inl hh.symm)
    have h2 : k ∉ Store.keys t := fun hh => h (Or.inr hh)
    simp [Store.get, h1, ih h2]

theorem Store.mem_keys_set (s : Store) (k v x : String)
    (h : x ∈ Store.keys (Store.set s k v)) : x ∈ Store.keys s ∨ x = k := by
  induction s with
  | nil =>
    simp [Store.set, Store.keys] at h
    exact Or.inr h
  | cons p t ih =>
    by_cases hp : p.1 = k
    · have hset : Store.set (p :: t) k v = (k, v) :: t := by simp [Store.set, hp]
      rw [hset, Store.keys_cons, List.mem_cons] at h
      rw [Store.keys_cons, List.mem_cons]
      rcases h with h | h
      · exact Or.inr h
      · exact Or.inl (Or.inr h)
    · have hset : Store.set (p :: t) k v = p :: Store.set t k v := by
        simp [Store.set, hp]
      rw [hset, Store.keys_cons, List.mem_cons] at h
      rw [Store.keys_cons, List.mem_cons]
      rcases h with h | h
      · exact Or.inl (Or.inl h)
      · rcases ih h with h2 | h2
        · exact Or.inl (Or.inr h2)
        · exact Or.inr h2

theorem Store.foldl_remove_get (ks : List String) (s : Store) (k : String) :
    Store.get (ks.foldl Store.remove s) k = if k ∈ ks then none else Store.get s k := by
  induction ks generalizing s with
  | nil => simp
  | cons a t ih =>
    rw [List.foldl_cons, ih]
    by_cases hk : k = a
    · subst hk
      simp [Store.get_remove_same]
    · simp [hk, Store.get_remove_of_ne s a k hk]

/-- Reads after clear: marked entries and the salt are gone, everything
else is untouched. -/
theorem clearEncryptedData_get (store : Store) (k : String) :
    Store.get (EncryptionHelper.clearEncryptedData store) k =
      if strStarts k "__enc_" = true ∨ k = "__app_salt" then none
      else Store.get store k := by
  rw [show EncryptionHelper.clearEncryptedData store =
        Store.remove
          (((Store.keys store).filter (fun k => strStarts k "__enc_")).foldl
            Store.remove store) "__app_salt" from rfl]
  by_cases hs : k = "__app_salt"
  · subst hs
    simp [Store.get_remove_same]
  · rw [Store.get_remove_of_ne _ _ _ hs, Store.foldl_remove_get]
    by_cases he : strStarts k "__enc_" = true
    · simp only [he, true_or, if_true]
      by_cases hm : k ∈ Store.keys store
      · have hmem : k ∈ (Store.keys store).filter (fun s => strStarts s "__enc_") :=
          List.mem_filter.mpr ⟨hm, he⟩
        rw [if_pos hmem]
      · have hnot : k ∉ (Store.keys store).filter (fun s => strStarts s "__enc_") :=
          fun hc => hm (List.mem_filter.mp hc).1
        rw [if_neg hnot]
        exact Store.get_eq_none store k hm
    · have hnot : k ∉ (Store.keys store).filter (fun s => strStarts s "__enc_") :=
        fun hc => he (List.mem_filter.mp hc).2
      rw [if_neg hnot]
      simp [he, hs]

/-!  Helper lemmas about hex rendering, prefixes and substring scans. -/

theorem strData_append (a b : String) : (a ++ b).data = a.data ++ b.data := by
  cases a
  cases b
  rfl

theorem hexDigitChar_ne_us (n : Nat) : hexDigitChar n ≠ '_' := by
  by_cases h : n < 16
  · have hall : ∀ m, m < 16 → hexDigitChar m ≠ '_' := by decide
    exact hall n h
  · unfold hexDigitChar
    rw [List.getD_eq_default]
    · decide
    · have hl : ("0123456789abcdef".data).length = 16 := rfl
      omega

theorem mem_bytesToHex_ne_us {c : Char} {bs : List Nat} (h : c ∈ bytesToHex bs) :
    c ≠ '_' := by
  rcases List.mem_flatMap.mp h with ⟨b, hb, hc⟩
  simp only [byteToHex, List.mem_cons, List.mem_singleton] at hc
  rcases hc with hc | hc | hc
  · exact hc ▸ hexDigitChar_ne_us _
  · exact hc ▸ hexDigitChar_ne_us _
  · exact absurd hc (by simp)

theorem isPref_append (p r : List Char) : isPref p (p ++ r) = true := by
  induction p with
  | nil => rfl
  | cons a t ih => simp [isPref, ih]

theorem encryptKey_data (digest : String → List Nat) (bk x : String) :
    (EncryptionHelper.encryptKey digest bk x).data =
      '_' :: '_' :: 'e' :: 'n' :: 'c' :: '_' ::
        ((EncryptionHelper.hashString digest (x ++ bk)).take 16) := by
  rw [show EncryptionHelper.encryptKey digest bk x =
        "__enc_" ++ String.mk ((EncryptionHelper.hashString digest (x ++ bk)).take 16)
      from rfl]
  rw [strData_append]
  rfl

theorem nsPref_data (name : String) :
    (nsPref name).data = '_' :: '_' :: 'n' :: 's' :: '_' :: (name.data ++ ['_', '_']) := by
  rw [show nsPref name = ("__ns_" ++ name) ++ "__" from rfl]
  rw [strData_append, strData_append]
  rw [show ("__ns_".data) = ['_', '_', 'n', 's', '_'] from rfl]
  rw [show ("__".data) = ['_', '_'] from rfl]
  simp

theorem encryptKey_starts (digest : String → List Nat) (bk x : String) :
    strStarts (EncryptionHelper.encryptKey digest bk x) "__enc_" = true := by
  rw [strStarts, encryptKey_data]
  exact isPref_append ['_', '_', 'e', 'n', 'c', '_'] _

theorem subOcc_no_us (l p : List Char) (h : ∀ c ∈ l, c ≠ '_') :
    subOcc l ('_' :: p) = false := by
  induction l with
  | nil => rfl
  | cons a t ih =>
    have ha : ¬ ('_' = a) := fun hh => h a (List.mem_cons_self a t) hh.symm
    simp only [subOcc, isPref, Bool.or_eq_false_iff]
    constructor
    · simp [ha]
    · exact ih (fun c hc => h c (List.mem_cons_of_mem a hc))

theorem noNs_sub (l p : List Char) (h : ∀ c ∈ l, c ≠ '_') :
    subOcc ('_' :: '_' :: 'e' :: 'n' :: 'c' :: '_' :: l) ('_' :: '_' :: 'n' :: p) = false := by
  have h1 : ('n' : Char) ≠ 'e' := by decide
  have h2 : ('_' : Char) ≠ 'e' := by decide
  have h3 : ('_' : Char) ≠ 'n' := by decide
  have h4 : ('_' : Char) ≠ 'c' := by decide
  cases l with
  | nil => simp [subOcc, isPref, h1, h2, h3, h4]
  | cons a t =>
    have ha : ¬ ('_' = a) := fun hh => h a (List.mem_cons_self a t) hh.symm
    have ht : subOcc t ('_' :: ('_' :: 'n' :: p)) = false :=
      subOcc_no_us t ('_' :: 'n' :: p) (fun c hc => h c (List.mem_cons_of_mem a hc))
    simp [subOcc, isPref, h1, h2, h3, h4, ha, ht]

/-- An obfuscated name never contains the namespace prefix fragment: it is
the marker followed by hex characters only. -/
theorem encryptKey_no_ns (digest : String → List Nat) (bk x name : String) :
    strContains (EncryptionHelper.encryptKey digest bk x) (nsPref name) = false := by
  rw [strContains, encryptKey_data, nsPref_data]
  exact noNs_sub _ _ (fun c hc =>
    mem_bytesToHex_ne_us (List.take_subset 16 _ hc))

/-!  Helper lemmas about the set and get paths. -/

theorem buildTrace_happy (env : SetEnv) (key value : String) (exp : Option Nat)
    (pv cks ser ek ct : String)
    (hpv : (if shouldCompressB env value then env.compressF value else some value) = some pv)
    (hck : env.checksumF pv = some cks)
    (hser : env.serializeF (mkStored env.now pv (shouldCompressB env value) cks exp) = some ser)
    (hek : env.encKeyF key = some ek)
    (hct : env.encF ser = some ct)
    (hw : env.storeWriteF ek ct = true) :
    buildTrace env key value exp =
      ((if shouldCompressB env value then [Ev.compressed key] else []), some (ek, ct)) := by
  simp only [buildTrace, hpv, hck, hser, hek, hct, hw, if_true]

theorem setItem_happy (env : SetEnv) (store : Store) (key value : String)
    (pv cks ser ek ct : String)
    (hsup : env.supported = true)
    (hpv : (if shouldCompressB env value then env.compressF value else some value) = some pv)
    (hck : env.checksumF pv = some cks)
    (hser : env.serializeF (mkStored env.now pv (shouldCompressB env value) cks none) = some ser)
    (hek : env.encKeyF key = some ek)
    (hct : env.encF ser = some ct)
    (hw : env.storeWriteF ek ct = true) :
    SecureStorage.setItem env store key value =
      (Store.set store ek ct,
       (if shouldCompressB env value then [Ev.compressed key] else []) ++ [Ev.encrypted key]) := by
  have hb := buildTrace_happy env key value none pv cks ser ek ct hpv hck hser hek hct hw
  simp [SecureStorage.setItem, hsup, hb]

theorem getItemFinish_benign (env : GetEnv) (store : Store) (key : String)
    (sv : StoredValue) (fv : String)
    (hchk : sv.checksum = none ∨
      ∃ c, sv.checksum = some c ∧ env.checksumF sv.value = some c)
    (hfin : (if sv.compressed then env.decompressF sv.value else some sv.value) = some fv) :
    SecureStorage.getItemFinish env store key sv =
      (store, (if sv.compressed then [Ev.decompressed key] else []) ++ [Ev.decrypted key],
       some fv) := by
  cases hcb : sv.compressed with
  | false =>
    rw [hcb] at hfin
    simp only [Bool.false_eq_true, if_false, Option.some.injEq] at hfin
    subst hfin
    rcases hchk with h | ⟨c, hc, hc2⟩
    · simp [SecureStorage.getItemFinish, h, hcb]
    · by_cases hcc : c = ""
      · simp [SecureStorage.getItemFinish, hc, hcc, hcb]
      · simp [SecureStorage.getItemFinish, hc, hcc, hc2, hcb]
  | true =>
    rw [hcb] at hfin
    simp only [if_true] at hfin
    rcases hchk with h | ⟨c, hc, hc2⟩
    · simp [SecureStorage.getItemFinish, h, hcb, hfin]
    · by_cases hcc : c = ""
      · simp [SecureStorage.getItemFinish, hc, hcc, hcb, hfin]
      · simp [SecureStorage.getItemFinish, hc, hcc, hc2, hcb, hfin]

theorem getItemDecode_benign (env : GetEnv) (store : Store) (key ct ser : String)
    (sv : StoredValue) (fv : String)
    (hdec : env.decF ct = some ser) (hparse : env.parseF ser = some sv)
    (hval : sv.value ≠ "") (hver : sv.version ≠ 0) (hexp : sv.expiresAt = none)
    (hchk : sv.checksum = none ∨
      ∃ c, sv.checksum = some c ∧ env.checksumF sv.value = some c)
    (hfin : (if sv.compressed then env.decompressF sv.value else some sv.value) = some fv) :
    SecureStorage.getItemDecode env store key ct =
      (store, (if sv.compressed then [Ev.decompressed key] else []) ++ [Ev.decrypted key],
       some fv) := by
  simp only [SecureStorage.getItemDecode, hdec, hparse]
  rw [if_neg (by push_neg; exact ⟨hval, hver⟩), hexp]
  exact getItemFinish_benign env store key sv fv hchk hfin

theorem getItem_found (env : GetEnv) (store : Store) (key ek ct ser : String)
    (sv : StoredValue) (fv : String)
    (hsup : env.supported = true)
    (hek : env.encKeyF key = some ek)
    (hget : Store.get store ek = some ct) (hctne : ct ≠ "")
    (hdec : env.decF ct = some ser) (hparse : env.parseF ser = some sv)
    (hval : sv.value ≠ "") (hver : sv.version ≠ 0) (hexp : sv.expiresAt = none)
    (hchk : sv.checksum = none ∨
      ∃ c, sv.checksum = some c ∧ env.checksumF sv.value = some c)
    (hfin : (if sv.compressed then env.decompressF sv.value else some sv.value) = some fv) :
    SecureStorage.getItem env store key =
      (store, (if sv.compressed then [Ev.decompressed key] else []) ++ [Ev.decrypted key],
       some fv) := by
  simp only [SecureStorage.getItem, hsup, hek]
  rw [hget]
  simp only [truthy, if_neg hctne]
  simp only [Bool.true_eq_false, if_false]
  exact getItemDecode_benign env store key ct ser sv fv hdec hparse hval hver hexp hchk hfin

/-!  Helper lemmas about base64 framing and listener invocation. -/

theorem stringMk_data (l : List Char) : (String.mk l).data = l := rfl

theorem sextetVal_sextetChar : ∀ n, n < 64 → sextetVal (sextetChar n) = n := by decide

theorem sextetChar_ne_eq (n : Nat) : sextetChar n ≠ '=' := by
  by_cases h : n < 64
  · have hall : ∀ m, m < 64 → sextetChar m ≠ '=' := by decide
    exact hall n h
  · unfold sextetChar
    rw [List.getD_eq_default]
    · decide
    · have hl : b64Alphabet.length = 64 := rfl
      omega

theorem decodeB64_encodeB64 :
    ∀ (bs : List Nat), (∀ x ∈ bs, x < 256) → decodeB64 (encodeB64 bs) = bs
  | [] => fun _ => rfl
  | [a] => fun h => by
    have ha : a < 256 := h a (by simp)
    have h0 : sextetVal (sextetChar (a / 4)) = a / 4 :=
      sextetVal_sextetChar _ (by omega)
    have h1 : sextetVal (sextetChar (a % 4 * 16)) = a % 4 * 16 :=
      sextetVal_sextetChar _ (by omega)
    simp only [encodeB64, decodeB64]
    rw [if_pos trivial, h0, h1]
    have e0 : a / 4 * 4 + a % 4 * 16 / 16 = a := by omega
    rw [e0]
  | [a, b] => fun h => by
    have ha : a < 256 := h a (by simp)
    have hb : b < 256 := h b (by simp)
    have h0 : sextetVal (sextetChar (a / 4)) = a / 4 :=
      sextetVal_sextetChar _ (by omega)
    have h1 : sextetVal (sextetChar (a % 4 * 16 + b / 16)) = a % 4 * 16 + b / 16 :=
      sextetVal_sextetChar _ (by omega)
    have h2 : sextetVal (sextetChar (b % 16 * 4)) = b % 16 * 4 :=
      sextetVal_sextetChar _ (by omega)
    simp only [encodeB64, decodeB64]
    rw [if_pos trivial, h0, h1, h2]
    have e0 : a / 4 * 4 + (a % 4 * 16 + b / 16) / 16 = a := by omega
    have e1 : (a % 4 * 16 + b / 16) % 16 * 16 + b % 16 * 4 / 4 = b := by omega
    rw [e0, e1, if_neg (sextetChar_ne_eq _)]
  | a :: b :: c :: rest => fun h => by
    have ha : a < 256 := h a (by simp)
    have hb : b < 256 := h b (by simp)
    have hc : c < 256 := h c (by simp)
    have ih := decodeB64_encodeB64 rest (fun x hx => h x (by simp [hx]))
    have h0 : sextetVal (sextetChar (a / 4)) = a / 4 :=
      sextetVal_sextetChar _ (by omega)
    have h1 : sextetVal (sextetChar (a % 4 * 16 + b / 16)) = a % 4 * 16 + b / 16 :=
      sextetVal_sextetChar _ (by omega)
    have h2 : sextetVal (sextetChar (b % 16 * 4 + c / 64)) = b % 16 * 4 + c / 64 :=
      sextetVal_sextetChar _ (by omega)
    have h3 : sextetVal (sextetChar (c % 64)) = c % 64 :=
      sextetVal_sextetChar _ (by omega)
    simp only [encodeB64, decodeB64]
    rw [if_neg (sextetChar_ne_eq _), if_neg (sextetChar_ne_eq _), h0, h1, h2, h3, ih]
    have e0 : a / 4 * 4 + (a % 4 * 16 + b / 16) / 16 = a := by omega
    have e1 : (a % 4 * 16 + b / 16) % 16 * 16 + (b % 16 * 4 + c / 64) / 4 = b := by omega
    have e2 : (b % 16 * 4 + c / 64) % 4 * 64 + c % 64 = c := by omega
    rw [e0, e1, e2]

theorem runAll_fst {σ : Type} (d : EvData) (ls : List (Listener σ)) (w : σ) :
    (runAll d ls w).1 = ls.foldl (fun acc l => l.run d acc) w := by
  induction ls generalizing w with
  | nil => rfl
  | cons l t ih => simp [runAll, ih]

theorem runAll_len {σ : Type} (d : EvData) (ls : List (Listener σ)) (w : σ) :
    (runAll d ls w).2.length = ls.length := by
  induction ls generalizing w with
  | nil => rfl
  | cons l t ih => simp [runAll, ih]

/-!  Claim theorems. -/

/-- C1: key rotation does not preserve readability.  At the concrete
input below — one logical key stored with crypto supported, then
rotateKeys() — getItem on the logical key returns null afterwards, even
though the key-version counter did increase strictly: the rotation
re-encrypts each exported value under a re-obfuscation of the OLD
obfuscated name rather than of the logical key, so the read looks up a
name that no longer exists. -/
theorem rotateKeys_breaks_getItem_at_concrete_input :
    (SecureStorage.getItem (toyGetAt 1)
        (KeyRotation.rotateKeys toyRot "S2"
          { store := (SecureStorage.setItem (toyGetAt 0).toSetEnv [] "k" "v").1,
            epoch := 0, keyVersion := 1 }).store "k").2.2 = none ∧
    (SecureStorage.getItem (toyGetAt 0)
        (SecureStorage.setItem (toyGetAt 0).toSetEnv [] "k" "v").1 "k").2.2 = some "v" ∧
    (KeyRotation.rotateKeys toyRot "S2"
      { store := (SecureStorage.setItem (toyGetAt 0).toSetEnv [] "k" "v").1,
        epoch := 0, keyVersion := 1 }).keyVersion = 2 := by
  decide

/-- C2 (amended): when any step of the encrypting set path fails, setItem
falls back to the plaintext write under the plain name, emits 'error',
and the write is not lost; setItemWithExpiry, however, emits 'error' and
re-throws, leaving the store untouched and making no fallback write. -/
theorem set_path_failure_fallback_policy (env : SetEnv) (store : Store)
    (key value : String) (opts : ExpiryOptions)
    (hsup : env.supported = true)
    (h1 : (buildTrace env key value none).2 = none)
    (h2 : (buildTrace env key value (computeExpiry env.now opts)).2 = none) :
    SecureStorage.setItem env store key value =
      (Store.set store key value, (buildTrace env key value none).1 ++ [Ev.error key]) ∧
    Store.get (Store.set store key value) key = some value ∧
    SecureStorage.setItemWithExpiry env store key value opts =
      SecureStorage.SetResult.threw store
        ((buildTrace env key value (computeExpiry env.now opts)).1 ++ [Ev.error key]) := by
  refine ⟨?_, Store.get_set_same store key value, ?_⟩
  · rcases hbt : buildTrace env key value none with ⟨evs, o⟩
    rw [hbt] at h1
    simp only at h1
    subst h1
    simp [SecureStorage.setItem, hsup, hbt]
  · rcases hbt : buildTrace env key value (computeExpiry env.now opts) with ⟨evs, o⟩
    rw [hbt] at h2
    simp only at h2
    subst h2
    simp [SecureStorage.setItemWithExpiry, hsup, hbt]

/-- C2 counterexample: with crypto supported and encryption failing,
setItemWithExpiry emits 'error' and throws; no plaintext fallback write
happens (the plain key stays absent), contradicting the claim that the
fallback policy holds for both set operations. -/
theorem setItemWithExpiry_no_fallback_cex :
    SecureStorage.setItemWithExpiry { toySet with encF := fun _ => none } [] "k" "v"
        { expiresIn := some 10 } =
      SecureStorage.SetResult.threw [] [Ev.error "k"] ∧
    Store.get [] "k" = none := by
  decide

/-- C3 (amended): for every key and every value whose processed payload
is non-empty, a successful encrypting setItem followed by getItem returns
exactly the stored value (the envelope round-trips, matches its checksum
and is never misrouted to legacy migration). -/
theorem setItem_getItem_roundtrip_nonempty (env : GetEnv) (store : Store)
    (key value pv cks ser ek ct : String)
    (hsup : env.supported = true)
    (hpv : (if shouldCompressB env.toSetEnv value then env.compressF value
            else some value) = some pv)
    (hpvne : pv ≠ "")
    (hck : env.checksumF pv = some cks)
    (hser : env.serializeF
        (mkStored env.now pv (shouldCompressB env.toSetEnv value) cks none) = some ser)
    (hek : env.encKeyF key = some ek)
    (hct : env.encF ser = some ct) (hctne : ct ≠ "")
    (hw : env.storeWriteF ek ct = true)
    (hdec : env.decF ct = some ser)
    (hparse : env.parseF ser =
      some (mkStored env.now pv (shouldCompressB env.toSetEnv value) cks none))
    (hfin : (if shouldCompressB env.toSetEnv value then env.decompressF pv
             else some pv) = some value) :
    (SecureStorage.getItem env
        (SecureStorage.setItem env.toSetEnv store key value).1 key).2.2 = some value := by
  have hset := setItem_happy env.toSetEnv store key value pv cks ser ek ct
    hsup hpv hck hser hek hct hw
  rw [hset]
  have hfound := getItem_found env (Store.set store ek ct) key ek ct ser
    (mkStored env.now pv (shouldCompressB env.toSetEnv value) cks none) value
    hsup hek (Store.get_set_same store ek ct) hctne hdec hparse
    hpvne (by simp [mkStored, storageVersion]) rfl
    (Or.inr ⟨cks, rfl, hck⟩) hfin
  simp [hfound]

/-- C3 counterexample: storing the empty string misroutes the read — the
well-formed version-2 envelope whose value field is empty is classified
as legacy by the falsy-value check, auto-migrated, and getItem returns
the serialized envelope text instead of the empty string. -/
theorem getItem_empty_value_misclassified_cex :
    (SecureStorage.getItem toyGet
        (SecureStorage.setItem toySet [] "k" "").1 "k").2.2 =
      some "|n|100|100|2|f|s" ∧
    some "|n|100|100|2|f|s" ≠ some "" := by
  decide

/-- C4 (amended): clear removes every marked entry and the persisted
salt and emits 'cleared', leaving every other entry — including the
key-version system entry, which the claim wrongly says is removed —
unchanged. -/
theorem clear_removes_marked_and_salt (store : Store) :
    SecureStorage.clear store = (EncryptionHelper.clearEncryptedData store, [Ev.cleared]) ∧
    (∀ k, strStarts k "__enc_" = true →
      Store.get (EncryptionHelper.clearEncryptedData store) k = none) ∧
    Store.get (EncryptionHelper.clearEncryptedData store) "__app_salt" = none ∧
    (∀ k, strStarts k "__enc_" = false → k ≠ "__app_salt" →
      Store.get (EncryptionHelper.clearEncryptedData store) k = Store.get store k) := by
  refine ⟨rfl, ?_, ?_, ?_⟩
  · intro k hk
    rw [clearEncryptedData_get]
    simp [hk]
  · rw [clearEncryptedData_get]
    simp
  · intro k hk hs
    rw [clearEncryptedData_get]
    simp [hk, hs]

/-- C4 counterexample: after clear() the persisted key-version counter
entry is still present, contradicting the claim that both reserved
system entries are removed. -/
theorem clear_keeps_key_version_cex :
    Store.get (SecureStorage.clear [("__key_version", "5"), ("__enc_a", "x")]).1
        "__key_version" = some "5" ∧
    some "5" ≠ (none : Option String) := by
  decide

/-- C5 (amended): for a stored entry whose envelope has a NONZERO
expiresAt, getItem at a later time deletes the entry, emits 'expired'
exactly once (the event list is exactly deleted-then-expired), and
returns null; at a time not past the expiry it returns the stored value.
A zero expiresAt is falsy and is never treated as expired. -/
theorem getItem_expiry_behavior (env : GetEnv) (store : Store)
    (key ek ct ser : String) (sv : StoredValue) (t : Nat)
    (hsup : env.supported = true)
    (hek : env.encKeyF key = some ek)
    (hget : Store.get store ek = some ct) (hctne : ct ≠ "")
    (hdec : env.decF ct = some ser) (hparse : env.parseF ser = some sv)
    (hval : sv.value ≠ "") (hver : sv.version ≠ 0)
    (hexp : sv.expiresAt = some t) (ht : t ≠ 0) :
    (t < env.now →
      SecureStorage.getItem env store key =
        (Store.remove (Store.remove store ek) key,
         [Ev.deleted key, Ev.expired key], none)) ∧
    (env.now ≤ t → sv.checksum = none → sv.compressed = false →
      SecureStorage.getItem env store key = (store, [Ev.decrypted key], some sv.value)) := by
  constructor
  · intro hpast
    have hcond : t ≠ 0 ∧ t < env.now := ⟨ht, hpast⟩
    simp only [SecureStorage.getItem, hsup, hek]
    rw [hget]
    simp only [truthy, if_neg hctne]
    simp only [Bool.true_eq_false, if_false]
    simp only [SecureStorage.getItemDecode, hdec, hparse]
    rw [if_neg (by push_neg; exact ⟨hval, hver⟩), hexp]
    simp [hcond, SecureStorage.removeItem, hsup, hek]
  · intro hfut hcknone hcompf
    have hcond : ¬ (t ≠ 0 ∧ t < env.now) := by omega
    have hb := getItemFinish_benign env store key sv sv.value (Or.inl hcknone)
      (by rw [hcompf]; simp)
    simp only [SecureStorage.getItem, hsup, hek]
    rw [hget]
    simp only [truthy, if_neg hctne]
    simp only [Bool.true_eq_false, if_false]
    simp only [SecureStorage.getItemDecode, hdec, hparse]
    rw [if_neg (by push_neg; exact ⟨hval, hver⟩), hexp]
    simp [hcond, hb, hcompf]

/-- C5 counterexample: an envelope with expiresAt = 0 — a set expiry
timestamp lying in the past of the clock now = 100 — is returned as a
live value: the falsy-zero check skips expiry handling entirely,
contradicting deletion, the 'expired' event and the null result. -/
theorem getItem_zero_expiry_not_expired_cex :
    SecureStorage.getItem toyGet [("__enc_6b42", "Ev|s0|1|1|2|f|n")] "k" =
      ([("__enc_6b42", "Ev|s0|1|1|2|f|n")], [Ev.decrypted "k"], some "v") := by
  decide

/-- C6 (amended): a NONZERO relative duration takes precedence over the
absolute timestamp and the stored envelope's expiry is now + expiresIn;
with neither option there is no expiry; and a successful
setItemWithExpiry stores exactly the envelope carrying computeExpiry of
the options (expiresIn = 0 is falsy, so the absolute timestamp wins
then). -/
theorem expiry_precedence (env : SetEnv) (store : Store)
    (key value pv cks ser ek ct : String) (opts : ExpiryOptions)
    (hsup : env.supported = true)
    (hpv : (if shouldCompressB env value then env.compressF value
            else some value) = some pv)
    (hck : env.checksumF pv = some cks)
    (hser : env.serializeF
        (mkStored env.now pv (shouldCompressB env value) cks
          (computeExpiry env.now opts)) = some ser)
    (hek : env.encKeyF key = some ek)
    (hct : env.encF ser = some ct)
    (hw : env.storeWriteF ek ct = true) :
    (∀ d abs, d ≠ 0 →
      computeExpiry env.now { expiresIn := some d, expiresAt := abs } =
        some (env.now + d)) ∧
    computeExpiry env.now { expiresIn := none, expiresAt := none } = none ∧
    SecureStorage.setItemWithExpiry env store key value opts =
      SecureStorage.SetResult.ok (Store.set store ek ct)
        ((if shouldCompressB env value then [Ev.compressed key] else []) ++
          [Ev.encrypted key]) := by
  refine ⟨?_, rfl, ?_⟩
  · intro d abs hd
    simp [computeExpiry, hd]
  · have hb := buildTrace_happy env key value (computeExpiry env.now opts)
      pv cks ser ek ct hpv hck hser hek hct hw
    simp [SecureStorage.setItemWithExpiry, hsup, hb]

/-- C6 counterexample: with expiresIn = 0 supplied together with an
absolute timestamp, the stored expiry is the absolute timestamp 500, not
now + 0 = 100 — the relative duration does not take precedence for the
value 0. -/
theorem computeExpiry_zero_expiresIn_cex :
    computeExpiry 100 { expiresIn := some 0, expiresAt := some 500 } = some 500 ∧
    some 500 ≠ some (100 + 0) := by
  decide

/-- C7: a checksum mismatch on read is reported but not enforced — the
'error' event is emitted and the read still completes with the value;
when the recomputed checksum matches, no 'error' event is emitted. -/
theorem getItem_checksum_mismatch_nonfatal (env : GetEnv) (store : Store)
    (key ek ct ser : String) (sv : StoredValue) (c c2 fv : String)
    (hsup : env.supported = true)
    (hek : env.encKeyF key = some ek)
    (hget : Store.get store ek = some ct) (hctne : ct ≠ "")
    (hdec : env.decF ct = some ser) (hparse : env.parseF ser = some sv)
    (hval : sv.value ≠ "") (hver : sv.version ≠ 0) (hexp : sv.expiresAt = none)
    (hcks : sv.checksum = some c) (hcne : c ≠ "")
    (hrc : env.checksumF sv.value = some c2)
    (hfin : (if sv.compressed then env.decompressF sv.value
             else some sv.value) = some fv) :
    (c2 ≠ c →
      SecureStorage.getItem env store key =
        (store, [Ev.error key] ++
          (if sv.compressed then [Ev.decompressed key] else []) ++ [Ev.decrypted key],
         some fv)) ∧
    (c2 = c →
      SecureStorage.getItem env store key =
        (store, (if sv.compressed then [Ev.decompressed key] else []) ++
          [Ev.decrypted key], some fv)) := by
  constructor
  · intro hne
    simp only [SecureStorage.getItem, hsup, hek]
    rw [hget]
    simp only [truthy, if_neg hctne]
    simp only [Bool.true_eq_false, if_false]
    simp only [SecureStorage.getItemDecode, hdec, hparse]
    rw [if_neg (by push_neg; exact ⟨hval, hver⟩), hexp]
    cases hcb : sv.compressed with
    | false =>
      rw [hcb] at hfin
      simp only [Bool.false_eq_true, if_false, Option.some.injEq] at hfin
      have hrc2 : env.checksumF fv = some c2 := by
        rw [← hfin]
        exact hrc
      simp [SecureStorage.getItemFinish, hcks, hcne, hrc2, hne, hcb, hfin]
    | true =>
      rw [hcb] at hfin
      simp only [if_true] at hfin
      simp [SecureStorage.getItemFinish, hcks, hcne, hrc, hne, hcb, hfin]
  · intro heq
    subst heq
    simp only [SecureStorage.getItem, hsup, hek]
    rw [hget]
    simp only [truthy, if_neg hctne]
    simp only [Bool.true_eq_false, if_false]
    simp only [SecureStorage.getItemDecode, hdec, hparse]
    rw [if_neg (by push_neg; exact ⟨hval, hver⟩), hexp]
    exact getItemFinish_benign env store key sv fv (Or.inr ⟨c2, hcks, hrc⟩) hfin

/-- C8: after an encrypting namespaced setItem, clearNamespace removes
nothing (the scan finds no stored name containing the namespace prefix
fragment, since obfuscated names are the marker plus hex characters) and
the namespaced getItem still returns the stored value. -/
theorem clearNamespace_preserves_encrypted_entries
    (digest : String → List Nat) (baseKey : String) (env : GetEnv) (store : Store)
    (name key value pv cks ser ct : String)
    (hsup : env.supported = true)
    (hekF : env.encKeyF = fun x => some (EncryptionHelper.encryptKey digest baseKey x))
    (hscan : ∀ s ∈ Store.keys store, strContains s (nsPref name) = false)
    (hpv : (if shouldCompressB env.toSetEnv value then env.compressF value
            else some value) = some pv)
    (hpvne : pv ≠ "")
    (hck : env.checksumF pv = some cks)
    (hser : env.serializeF
        (mkStored env.now pv (shouldCompressB env.toSetEnv value) cks none) = some ser)
    (hct : env.encF ser = some ct) (hctne : ct ≠ "")
    (hw : env.storeWriteF
        (EncryptionHelper.encryptKey digest baseKey (nsPref name ++ key)) ct = true)
    (hdec : env.decF ct = some ser)
    (hparse : env.parseF ser =
      some (mkStored env.now pv (shouldCompressB env.toSetEnv value) cks none))
    (hfin : (if shouldCompressB env.toSetEnv value then env.decompressF pv
             else some pv) = some value) :
    NamespacedStorage.clearNamespace env.toSetEnv
        (NamespacedStorage.setItem env.toSetEnv store name key value).1 name =
      ((NamespacedStorage.setItem env.toSetEnv store name key value).1, []) ∧
    (NamespacedStorage.getItem env
        (NamespacedStorage.clearNamespace env.toSetEnv
          (NamespacedStorage.setItem env.toSetEnv store name key value).1 name).1
        name key).2.2 = some value := by
  have hek : env.encKeyF (nsPref name ++ key) =
      some (EncryptionHelper.encryptKey digest baseKey (nsPref name ++ key)) := by
    rw [hekF]
  have hset : NamespacedStorage.setItem env.toSetEnv store name key value =
      (Store.set store (EncryptionHelper.encryptKey digest baseKey (nsPref name ++ key)) ct,
       (if shouldCompressB env.toSetEnv value then [Ev.compressed (nsPref name ++ key)]
        else []) ++ [Ev.encrypted (nsPref name ++ key)]) := by
    unfold NamespacedStorage.setItem
    exact setItem_happy env.toSetEnv store (nsPref name ++ key) value pv cks ser _ ct
      hsup hpv hck hser hek hct hw
  have hkeys : ∀ s2 ∈ Store.keys
      (Store.set store (EncryptionHelper.encryptKey digest baseKey (nsPref name ++ key)) ct),
      strContains s2 (nsPref name) = false := by
    intro s2 hs2
    rcases Store.mem_keys_set store _ ct s2 hs2 with h | h
    · exact hscan s2 h
    · rw [h]
      exact encryptKey_no_ns digest baseKey (nsPref name ++ key) name
  have hfilter : (Store.keys
      (Store.set store (EncryptionHelper.encryptKey digest baseKey (nsPref name ++ key))
        ct)).filter (fun s => strContains s (nsPref name)) = [] := by
    rw [List.filter_eq_nil_iff]
    intro a ha
    simp [hkeys a ha]
  have hclear : NamespacedStorage.clearNamespace env.toSetEnv
      (Store.set store (EncryptionHelper.encryptKey digest baseKey (nsPref name ++ key)) ct)
      name =
      (Store.set store (EncryptionHelper.encryptKey digest baseKey (nsPref name ++ key)) ct,
       []) := by
    simp [NamespacedStorage.clearNamespace, hfilter]
  constructor
  · rw [hset]
    exact hclear
  · rw [hset]
    simp only []
    rw [hclear]
    simp only [NamespacedStorage.getItem]
    have hfound := getItem_found env
      (Store.set store (EncryptionHelper.encryptKey digest baseKey (nsPref name ++ key)) ct)
      (nsPref name ++ key) (EncryptionHelper.encryptKey digest baseKey (nsPref name ++ key))
      ct ser (mkStored env.now pv (shouldCompressB env.toSetEnv value) cks none) value
      hsup hek (Store.get_set_same store _ ct) hctne hdec hparse
      hpvne (by simp [mkStored, storageVersion]) rfl
      (Or.inr ⟨cks, rfl, hck⟩) hfin
    simp [hfound]

/-- C9: the cipher round-trips — for every plaintext, decrypt of encrypt
returns the plaintext, given that the external AES-GCM and UTF-8
primitives invert each other on it and produce bytes; the engine's own
framing (fresh IV prepended at the configured length, base64 of the
combined buffer) preserves the payload exactly. -/
theorem decrypt_encrypt_roundtrip (env : CipherEnv) (key iv : List Nat) (P : String)
    (hlen : iv.length = env.ivLength)
    (hivb : ∀ x ∈ iv, x < 256)
    (hctb : ∀ x ∈ env.aesEnc key iv (env.utf8Enc P), x < 256)
    (haes : env.aesDec key iv (env.aesEnc key iv (env.utf8Enc P)) =
      some (env.utf8Enc P))
    (hutf : env.utf8Dec (env.utf8Enc P) = P) :
    EncryptionHelper.decrypt env key (EncryptionHelper.encrypt env key iv P) = some P := by
  simp only [EncryptionHelper.encrypt, EncryptionHelper.decrypt, stringMk_data]
  rw [decodeB64_encodeB64 _ (fun x hx => by
    rcases List.mem_append.mp hx with h | h
    · exact hivb x h
    · exact hctb x h)]
  rw [← hlen, List.take_left, List.drop_left, haes]
  simp [hutf]

/-- C10: emit builds one event datum carrying the attached timestamp and
invokes every matching subscriber in registration order — the final
world is the fold of all their effects, regardless of which listeners
throw (throws are recorded and swallowed, never propagated) — and the
per-listener outcome list has exactly one entry per matching
subscriber. -/
theorem emit_invokes_all_listeners_isolated {σ : Type} (st : EmitterState σ)
    (event : String) (key : Option String) (now : Nat) (w : σ) :
    (EventEmitter.emit st event key now w).2.1 =
      (lookupLs st.listeners event ++ lookupLs st.onceListeners event).foldl
        (fun acc l => l.run { type := event, key := key, timestamp := now } acc) w ∧
    (EventEmitter.emit st event key now w).2.2.length =
      (lookupLs st.listeners event).length + (lookupLs st.onceListeners event).length := by
  constructor
  · simp [EventEmitter.emit, runAll_fst, List.foldl_append]
  · simp [EventEmitter.emit, runAll_len]

/-!  Witnesses: the claim theorems applied at concrete inputs. -/

/-- C2 witness: a concrete environment whose encryption call fails. -/
theorem set_path_failure_fallback_policy_witness :
    SecureStorage.setItem { toySet with encF := fun _ => none } [] "k" "v" =
      (Store.set [] "k" "v",
       (buildTrace { toySet with encF := fun _ => none } "k" "v" none).1 ++
         [Ev.error "k"]) ∧
    Store.get (Store.set [] "k" "v") "k" = some "v" ∧
    SecureStorage.setItemWithExpiry { toySet with encF := fun _ => none } [] "k" "v"
        { expiresIn := some 7 } =
      SecureStorage.SetResult.threw []
        ((buildTrace { toySet with encF := fun _ => none } "k" "v"
            (computeExpiry ({ toySet with encF := fun _ => none } : SetEnv).now
              { expiresIn := some 7 })).1 ++ [Ev.error "k"]) :=
  set_path_failure_fallback_policy { toySet with encF := fun _ => none } [] "k" "v"
    { expiresIn := some 7 } (by decide) (by decide) (by decide)

/-- C3 witness: a concrete non-empty value round-trips. -/
theorem setItem_getItem_roundtrip_nonempty_witness :
    (SecureStorage.getItem toyGet
        (SecureStorage.setItem toyGet.toSetEnv [] "k" "v").1 "k").2.2 = some "v" :=
  setItem_getItem_roundtrip_nonempty toyGet [] "k" "v" "v" "76"
    "v|n|100|100|2|f|s76" "__enc_6b42" "Ev|n|100|100|2|f|s76"
    (by decide) (by decide) (by decide) (by decide) (by decide) (by decide)
    (by decide) (by decide) (by decide) (by decide) (by decide) (by decide)

/-- C4 witness: a concrete store with one entry of each kind. -/
theorem clear_removes_marked_and_salt_witness :
    Store.get (EncryptionHelper.clearEncryptedData
        [("__enc_a", "x"), ("__app_salt", "s"), ("plain", "p"), ("__key_version", "7")])
      "__enc_a" = none ∧
    Store.get (EncryptionHelper.clearEncryptedData
        [("__enc_a", "x"), ("__app_salt", "s"), ("plain", "p"), ("__key_version", "7")])
      "__app_salt" = none ∧
    Store.get (EncryptionHelper.clearEncryptedData
        [("__enc_a", "x"), ("__app_salt", "s"), ("plain", "p"), ("__key_version", "7")])
      "plain" = some "p" := by
  have h := clear_removes_marked_and_salt
    [("__enc_a", "x"), ("__app_salt", "s"), ("plain", "p"), ("__key_version", "7")]
  exact ⟨h.2.1 "__enc_a" (by decide), h.2.2.1, h.2.2.2 "plain" (by decide) (by decide)⟩

/-- C5 witness: a stored entry that expired at time 50, read at time 100. -/
theorem getItem_expiry_behavior_witness :
    SecureStorage.getItem toyGet [("__enc_6b42", "Ev|s50|1|1|2|f|n")] "k" =
      (Store.remove (Store.remove [("__enc_6b42", "Ev|s50|1|1|2|f|n")] "__enc_6b42") "k",
       [Ev.deleted "k", Ev.expired "k"], none) :=
  (getItem_expiry_behavior toyGet [("__enc_6b42", "Ev|s50|1|1|2|f|n")] "k"
    "__enc_6b42" "Ev|s50|1|1|2|f|n" "v|s50|1|1|2|f|n"
    { value := "v", expiresAt := some 50, createdAt := 1, modifiedAt := 1,
      version := 2, compressed := false, checksum := none } 50
    (by decide) (by decide) (by decide) (by decide) (by decide) (by decide)
    (by decide) (by decide) (by decide) (by decide)).1 (by decide)

/-- C6 witness: expiresIn = 10 beats expiresAt = 999 and the envelope
stores now + 10 = 110. -/
theorem expiry_precedence_witness :
    computeExpiry 100 { expiresIn := some 10, expiresAt := some 999 } = some 110 ∧
    SecureStorage.setItemWithExpiry toySet [] "k" "v"
        { expiresIn := some 10, expiresAt := some 999 } =
      SecureStorage.SetResult.ok
        (Store.set [] "__enc_6b42" "Ev|s110|100|100|2|f|s76")
        [Ev.encrypted "k"] := by
  have h := expiry_precedence toySet [] "k" "v" "v" "76" "v|s110|100|100|2|f|s76"
    "__enc_6b42" "Ev|s110|100|100|2|f|s76" { expiresIn := some 10, expiresAt := some 999 }
    (by decide) (by decide) (by decide) (by decide) (by decide) (by decide) (by decide)
  refine ⟨?_, ?_⟩
  · have h1 := h.1 10 (some 999) (by decide)
    simpa using h1
  · have h3 := h.2.2
    simpa using h3

/-- C7 witness: a stored checksum ff that does not match the recomputed
checksum 76 — the read emits 'error' and still returns the value. -/
theorem getItem_checksum_mismatch_nonfatal_witness :
    SecureStorage.getItem toyGet [("__enc_6b42", "Ev|n|1|1|2|f|sff")] "k" =
      ([("__enc_6b42", "Ev|n|1|1|2|f|sff")],
       [Ev.error "k", Ev.decrypted "k"], some "v") :=
  (getItem_checksum_mismatch_nonfatal toyGet [("__enc_6b42", "Ev|n|1|1|2|f|sff")] "k"
    "__enc_6b42" "Ev|n|1|1|2|f|sff" "v|n|1|1|2|f|sff"
    { value := "v", expiresAt := none, createdAt := 1, modifiedAt := 1,
      version := 2, compressed := false, checksum := some "ff" } "ff" "76" "v"
    (by decide) (by decide) (by decide) (by decide) (by decide) (by decide)
    (by decide) (by decide) (by decide) (by decide) (by decide) (by decide)
    (by decide)).1 (by decide)

/-- C8 witness: a namespaced write survives clearNamespace. -/
theorem clearNamespace_preserves_encrypted_entries_witness :
    (NamespacedStorage.getItem toyGet
        (NamespacedStorage.clearNamespace toyGet.toSetEnv
          (NamespacedStorage.setItem toyGet.toSetEnv [] "user" "data" "a").1 "user").1
        "user" "data").2.2 = some "a" :=
  (clearNamespace_preserves_encrypted_entries toyDigest "B" toyGet [] "user" "data" "a"
    "a" "61" "a|n|100|100|2|f|s61" "Ea|n|100|100|2|f|s61"
    (by decide) rfl (by intro s hs; simp [Store.keys] at hs)
    (by decide) (by decide) (by decide) (by decide) (by decide) (by decide)
    (by decide) (by decide) (by decide) (by decide)).2

/-- C9 witness: the framing round-trips at a concrete plaintext under the
concrete cipher primitives. -/
theorem decrypt_encrypt_roundtrip_witness :
    EncryptionHelper.decrypt toyCipher [1]
        (EncryptionHelper.encrypt toyCipher [1] [0, 0] "hi") = some "hi" :=
  decrypt_encrypt_roundtrip toyCipher [1] [0, 0] "hi"
    rfl (by decide) (by decide) (by decide) (by decide)
